import Mathlib

/-!
Verification of the Openverse API against its specification.

The definitions below are shallow embeddings of the Python sources:
  * `catalog/api/controllers/search_controller.py` (pagination, quote
    escaping, result/page counting, dead-link backfill recursion),
  * `catalog/api/utils/validate_images.py` (dead-link filtering and the
    dead-link mask merge),
  * `catalog/api/serializers` (source/excluded_source validation),
  * `catalog/api/utils/help_text.py` (help-text formatting),
  * `ingestion_server/api.py` (the worker_finished coordinator callback).
Python machine integers are modelled as `ℕ`/`ℤ`, Python floats appearing in
exact small-magnitude arithmetic as `ℚ`, fallible code as `Option`/`Except`.
-/

namespace Openverse

/-- `ELASTICSEARCH_MAX_RESULT_WINDOW = 10000` from search_controller.py. -/
def elasticsearchMaxResultWindow : ℕ := 10000

/-- `DEAD_LINK_RATIO = 1 / 2` from search_controller.py (a Python float,
modelled exactly as a rational). -/
def deadLinkRatio : ℚ := 1 / 2

/-- `DEEP_PAGINATION_ERROR` from search_controller.py. -/
def deepPaginationError : String := "Deep pagination is not allowed."

/-- Python `list.index(t)`: the first index whose element equals `t`,
`none` when absent (Python raises `ValueError`). -/
def pyIndex (l : List ℕ) (t : ℕ) : Option ℕ :=
  match l with
  | [] => none
  | x :: xs => if x = t then some 0 else (pyIndex xs t).map (· + 1)

/-- `itertools.accumulate` with a running accumulator. -/
def accumulateFrom (acc : ℕ) : List ℕ → List ℕ
  | [] => []
  | x :: xs => (acc + x) :: accumulateFrom (acc + x) xs

/-- Python `list(accumulate(query_mask))`: inclusive prefix sums. -/
def accumulate (l : List ℕ) : List ℕ := accumulateFrom 0 l

/-- The overfetch bound `ceil(page_size * page / (1 - DEAD_LINK_RATIO))`
used by `_paginate_with_dead_link_mask`. -/
def overfetchEnd (pageSize page : ℕ) : ℕ :=
  ⌈(pageSize * page : ℚ) / (1 - deadLinkRatio)⌉₊

/-- `_paginate_with_dead_link_mask` from search_controller.py. The stored
mask for the query fingerprint is passed explicitly (`[]` models "no mask
stored", matching Python's `if not query_mask`). The result is `none` when
an uncaught `ValueError` from `list.index` would propagate. -/
def paginateWithDeadLinkMask (queryMask : List ℕ) (pageSize page : ℕ) :
    Option (ℕ × ℕ) :=
  if queryMask = [] then
    some (0, overfetchEnd pageSize page)
  else if queryMask.sum < pageSize * (page - 1) then
    some (queryMask.length, overfetchEnd pageSize page)
  else
    match (if 1 < page then
        match pyIndex (accumulate queryMask) (pageSize * (page - 1) + 1) with
        | some i => some i
        | none => (pyIndex (accumulate queryMask) (pageSize * (page - 1))).map (· + 1)
      else some 0 : Option ℕ) with
    | none => none
    | some start =>
      if queryMask.sum < pageSize * page then
        some (start, overfetchEnd pageSize page)
      else
        (pyIndex (accumulate queryMask) (pageSize * page)).map (fun i => (start, i + 1))

/-- The slice computed by `_get_query_slice` before the deep-pagination
check: the dead-link-mask pagination when `filter_dead`, the plain
`page_size * (page-1) .. page_size * page` slice otherwise. -/
def rawQuerySlice (queryMask : List ℕ) (pageSize page : ℕ)
    (filterDead : Bool) : Option (ℕ × ℕ) :=
  if filterDead then paginateWithDeadLinkMask queryMask pageSize page
  else some (pageSize * (page - 1), pageSize * page)

/-- `_get_query_slice` from search_controller.py: raises
`DEEP_PAGINATION_ERROR` when the computed slice has
`start + end > ELASTICSEARCH_MAX_RESULT_WINDOW`, otherwise returns the
slice unchanged. -/
def getQuerySlice (queryMask : List ℕ) (pageSize page : ℕ)
    (filterDead : Bool) : Option (Except String (ℕ × ℕ)) :=
  (rawQuerySlice queryMask pageSize page filterDead).map (fun se =>
    if elasticsearchMaxResultWindow < se.1 + se.2 then
      Except.error deepPaginationError
    else Except.ok se)

/-- The `search` function executes the engine query (`s.execute()`) only
after `_get_query_slice` returns normally; a raised `ValueError`
propagates first. -/
def searchCallsEngine (queryMask : List ℕ) (pageSize page : ℕ)
    (filterDead : Bool) : Bool :=
  match getQuerySlice queryMask pageSize page filterDead with
  | some (Except.ok _) => true
  | _ => false

/-- Python `str.replace(old, new)` for a single-character pattern,
character by character. -/
def pyReplaceChar (s : String) (old : Char) (new : String) : String :=
  ⟨(s.data.map (fun c => if c = old then new.data else [c])).flatten⟩

/-- `_quote_escape` from search_controller.py: escape every double quote
when the count of double quotes is odd, return the string unchanged
otherwise. -/
def quoteEscape (queryString : String) : String :=
  if queryString.data.count '"' % 2 = 1 then
    pyReplaceChar queryString '"' "\\\""
  else queryString

/-- The recursion skeleton of `_post_process_results` from
search_controller.py, counting recursive backfill steps. `resLen start e`
abstracts the number of results that survive validation for the fetched
slice `[start, e)`; `fuel` bounds the recursion depth, with `none` when it
is exhausted. Each recursive step replaces `e` by `e + e / 2` and stops
as soon as `filter_dead` is false, the filtered results reach
`page_size`, or `start + e` exceeds the max result window. -/
def postProcessDepth (resLen : ℕ → ℕ → ℕ) (pageSize : ℕ)
    (filterDead : Bool) : ℕ → ℕ → ℕ → Option ℕ
  | fuel, start, e =>
    if filterDead = false then some 0
    else if pageSize ≤ resLen start e then some 0
    else
      let e2 := e + e / 2
      if elasticsearchMaxResultWindow < start + e2 then some 0
      else
        match fuel with
        | 0 => none
        | f + 1 => (postProcessDepth resLen pageSize filterDead f start e2).map (· + 1)

/-- The deletion loop of `validate_images` from validate_images.py. The
Python loop walks `cached_statuses` from the last index to the first,
keeps a hit when its status is 429 or 403, deletes the hit in place and
zeroes its mask bit when the status differs from 200, and leaves hits
with status 200 alone; iterating backwards makes each `del` independent
of the positions still to be visited, so the loop is this positional
recursion over the parallel status/result lists. Returns the surviving
results and the freshly built 0/1 mask segment (`new_mask`). -/
def deleteBrokenResults {α : Type} : List ℤ → List α → List α × List ℕ
  | [], _ => ([], [])
  | _, [] => ([], [])
  | status :: ss, r :: rs =>
    let rest := deleteBrokenResults ss rs
    if status = 429 ∨ status = 403 then (r :: rest.1, 1 :: rest.2)
    else if status ≠ 200 then (rest.1, 0 :: rest.2)
    else (r :: rest.1, 1 :: rest.2)

/-- The mask merge at the end of `validate_images`: when a mask was
already stored for the query hash, keep its first `start_slice` entries
and replace everything from `start_slice` on with the new segment
(`new_mask = mask[:start_slice] + new_mask`); with no stored mask the new
segment is saved as is. -/
def mergeQueryMask (oldMask newMask : List ℕ) (startSlice : ℕ) : List ℕ :=
  if oldMask = [] then newMask
  else oldMask.take startSlice ++ newMask

/-- `_get_result_and_page_count` from search_controller.py. `hitsTotal`
is `response_obj.hits.total.value`, `resultsLen` the length of the
filtered result list. Python's `int(result_count / page_size)` and
`int((5000 + page_size / 2) / page_size)` truncate exact nonnegative
quotients, so they are natural division: the latter equals
`(10000 + page_size) / (2 * page_size)`. -/
def getResultAndPageCount (hitsTotal resultsLen pageSize : ℕ) : ℕ × ℕ :=
  let resultCount := hitsTotal
  let naturalPageCount0 := resultCount / pageSize
  let naturalPageCount :=
    if naturalPageCount0 % pageSize ≠ 0 then naturalPageCount0 + 1
    else naturalPageCount0
  let lastAllowedPage := (10000 + pageSize) / (2 * pageSize)
  let pageCount := min naturalPageCount lastAllowedPage
  let finalResultCount :=
    if resultsLen < pageSize ∧ pageCount = 0 then resultsLen else resultCount
  (finalResultCount, pageCount)

/-- The `validate` method of `MediaSearchRequestSourceSerializer`
(media_serializers.py and request/media.py): a validation error exactly
when both the `source` and the `excluded_source` keys appear in the
request's initial data, the data returned unchanged otherwise. -/
def mediaSourceValidate {α : Type} (initialDataKeys : List String)
    (data : α) : Option α :=
  if "source" ∈ initialDataKeys ∧ "excluded_source" ∈ initialDataKeys then
    none
  else some data

/-- The list comprehension wrapping each item in backticks in
`make_help_text` (help_text.py). -/
def wrapBacktick (item : String) : String := "`" ++ item ++ "`"

/-- `formatted[-1] = f"and {formatted[-1]}"`: prepend `and ` to the last
element of a list. -/
def prependAndToLast : List String → List String
  | [] => []
  | [x] => ["and " ++ x]
  | x :: xs => x :: prependAndToLast xs

/-- The `formatted` list of `make_help_text`: backtick-wrapped items,
with `and ` prepended to the last one when there is more than one. -/
def helpTextFormatted (sortedItems : List String) : List String :=
  let formatted := sortedItems.map wrapBacktick
  if 1 < formatted.length then prependAndToLast formatted else formatted

/-- `CommaSeparatedField.make_help_text` from help_text.py, applied to
`sorted(self)` (the field is a set; `sortedItems` is its sorted list). -/
def makeHelpText (name : String) (sortedItems : List String) : String :=
  "A comma separated list of " ++ name ++ "; available " ++ name ++
    " include: " ++ String.intercalate ", " (helpTextFormatted sortedItems) ++ "."

/-- State of one reindex task as seen by the coordinator
(`WorkerFinishedResource.on_post` in ingestion_server/api.py): the
per-shard completion record, the shared `progress` value, the
`active_workers` flag and whether the promotion step (the go-live
`refresh` process plus the ready notification) has been spawned. A shard
entry is `none` while pending and `some errored` once its worker has
called back. -/
structure CoordState (n : ℕ) where
  shards : Fin n → Option Bool
  progress : ℚ
  activeWorkers : Bool
  promoted : Bool

/-- Number of shards whose worker has called back. -/
def countFinished {n : ℕ} (shards : Fin n → Option Bool) : ℕ :=
  (Finset.univ.filter (fun i => (shards i).isSome = true)).card

/-- Number of shards whose worker called back without an error. -/
def countSuccessful {n : ℕ} (shards : Fin n → Option Bool) : ℕ :=
  (Finset.univ.filter (fun i => shards i = some false)).card

/-- Modelled from the spec: `state.worker_finished` (module
`ingestion_server.state`, absent from the source tree) accumulates
percent-successful across shards; the fraction of shards that finished
without error, as a 0-100 percentage. -/
def percentSuccessful {n : ℕ} (shards : Fin n → Option Bool) : ℚ :=
  100 * countSuccessful shards / n

/-- Modelled from the spec: `state.worker_finished` also reports
percent-completed, the fraction of shards that have finished trying, as
a 0-100 percentage. -/
def percentCompleted {n : ℕ} (shards : Fin n → Option Bool) : ℚ :=
  100 * countFinished shards / n

/-- One `worker_finished` callback. Modelled from the spec for the part
of `state.worker_finished` missing from the source tree: the callback is
keyed by the calling worker (here the shard index) and records its error
flag; every shard reports exactly once. The rest is
`WorkerFinishedResource.on_post` from ingestion_server/api.py: the
task's progress is set to the accumulated percent-successful; when
percent-successful equals 100 the promotion step is spawned and the
ready notification fired; otherwise, when percent-completed equals 100,
`active_workers` is set to false and no promotion step is started. -/
def workerFinishedStep {n : ℕ} (st : CoordState n) (u : Fin n × Bool) :
    CoordState n :=
  let shards := Function.update st.shards u.1 (some u.2)
  let psucc := percentSuccessful shards
  let pcomp := percentCompleted shards
  { shards := shards
    progress := psucc
    promoted := if psucc = 100 then true else st.promoted
    activeWorkers :=
      if psucc = 100 then st.activeWorkers
      else if pcomp = 100 then false
      else st.activeWorkers }

/-- The task state before any callback: all shards pending, progress 0,
workers active, nothing promoted. -/
def initCoordState (n : ℕ) : CoordState n :=
  { shards := fun _ => none
    progress := 0
    activeWorkers := true
    promoted := false }

/-- A whole sequence of `worker_finished` callbacks applied in order. -/
def runCallbacks (n : ℕ) (updates : List (Fin n × Bool)) : CoordState n :=
  updates.foldl workerFinishedStep (initCoordState n)

/-- The start slice prescribed by the specification's wording for the
in-mask case: the first index at which the prefix sum of the mask equals
`page_size * (page - 1) + 1`, falling back to one plus the first index
where the prefix sum equals `page_size * (page - 1)`. -/
def specStartForMask (queryMask : List ℕ) (pageSize page : ℕ) : ℕ :=
  match pyIndex (accumulate queryMask) (pageSize * (page - 1) + 1) with
  | some i => i
  | none => (pyIndex (accumulate queryMask) (pageSize * (page - 1))).getD 0 + 1

/-- The slice prescribed by the specification's wording for
`_paginate_with_dead_link_mask`, exactly as the claim states it (the
prefix-sum rule for `start` applied to every page, including page 1). -/
def specSliceClaimed (queryMask : List ℕ) (pageSize page : ℕ) : ℕ × ℕ :=
  if queryMask = [] then (0, overfetchEnd pageSize page)
  else if queryMask.sum < pageSize * (page - 1) then
    (queryMask.length, overfetchEnd pageSize page)
  else
    (specStartForMask queryMask pageSize page,
     if queryMask.sum < pageSize * page then overfetchEnd pageSize page
     else (pyIndex (accumulate queryMask) (pageSize * page)).getD 0 + 1)

/-- The slice prescribed by the specification's wording, amended only on
the start of page 1: for page 1 the start is 0, and the prefix-sum rule
for `start` applies from page 2 on. -/
def specSliceAmended (queryMask : List ℕ) (pageSize page : ℕ) : ℕ × ℕ :=
  if queryMask = [] then (0, overfetchEnd pageSize page)
  else if queryMask.sum < pageSize * (page - 1) then
    (queryMask.length, overfetchEnd pageSize page)
  else
    ((if page = 1 then 0 else specStartForMask queryMask pageSize page),
     if queryMask.sum < pageSize * page then overfetchEnd pageSize page
     else (pyIndex (accumulate queryMask) (pageSize * page)).getD 0 + 1)

/-! ### Claim theorems -/

/-- C2: for every page, page size and filter_dead flag, when the computed
slice has `start + end` above the max result window the query-slice
computation raises exactly the deep-pagination error and the search makes
no engine call; otherwise the computed slice is returned unchanged. -/
theorem getQuerySlice_deep_pagination (queryMask : List ℕ)
    (pageSize page : ℕ) (filterDead : Bool) (s e : ℕ)
    (hslice : rawQuerySlice queryMask pageSize page filterDead = some (s, e)) :
    (elasticsearchMaxResultWindow < s + e →
      getQuerySlice queryMask pageSize page filterDead =
        some (Except.error deepPaginationError) ∧
      searchCallsEngine queryMask pageSize page filterDead = false) ∧
    (s + e ≤ elasticsearchMaxResultWindow →
      getQuerySlice queryMask pageSize page filterDead =
        some (Except.ok (s, e))) := by
  have hq : getQuerySlice queryMask pageSize page filterDead =
      some (if elasticsearchMaxResultWindow < s + e then
        Except.error deepPaginationError else Except.ok (s, e)) := by
    simp [getQuerySlice, hslice]
  constructor
  · intro h
    have hq' : getQuerySlice queryMask pageSize page filterDead =
        some (Except.error deepPaginationError) := by rw [hq]; simp [h]
    exact ⟨hq', by simp [searchCallsEngine, hq']⟩
  · intro h
    rw [hq]
    simp [Nat.not_lt.mpr h]

/-- C2 witness: page 501 at page size 20 without dead-link filtering
computes the slice (10000, 10020), which triggers the deep-pagination
error and no engine call. -/
theorem getQuerySlice_deep_pagination_witness :
    rawQuerySlice [] 20 501 false = some (10000, 10020) ∧
    getQuerySlice [] 20 501 false = some (Except.error deepPaginationError) ∧
    searchCallsEngine [] 20 501 false = false := by
  have h := (getQuerySlice_deep_pagination [] 20 501 false 10000 10020
    (by decide)).1 (by decide)
  exact ⟨by decide, h.1, h.2⟩

/-- C4: in the deletion loop of validate_images, a hit with status 200,
403 or 429 is kept and its mask bit stays 1; a hit with any other status
(404, the -1 no-response sentinel, ...) is removed and its mask bit is
set to 0. -/
theorem validate_images_status_filter {α : Type} (statuses : List ℤ)
    (results : List α) (hlen : statuses.length = results.length) :
    (deleteBrokenResults statuses results).2 =
      statuses.map (fun s => if s = 200 ∨ s = 403 ∨ s = 429 then 1 else 0) ∧
    (deleteBrokenResults statuses results).1 =
      (statuses.zip results).filterMap
        (fun p => if p.1 = 200 ∨ p.1 = 403 ∨ p.1 = 429 then some p.2 else none) := by
  induction statuses generalizing results with
  | nil =>
    have : results = [] := by
      cases results with
      | nil => rfl
      | cons r rs => simp at hlen
    subst this
    simp [deleteBrokenResults]
  | cons s ss ih =>
    cases results with
    | nil => simp at hlen
    | cons r rs =>
      have hlen' : ss.length = rs.length := by simpa using hlen
      obtain ⟨ih1, ih2⟩ := ih rs hlen'
      by_cases h1 : s = 429 ∨ s = 403
      · have h2 : s = 200 ∨ s = 403 ∨ s = 429 := by tauto
        simp [deleteBrokenResults, h1, h2, ih1, ih2]
      · by_cases h3 : s = 200
        · have h2 : s = 200 ∨ s = 403 ∨ s = 429 := by tauto
          simp [deleteBrokenResults, h1, h3, h2, ih1, ih2]
        · have h403 : s ≠ 403 := fun hc => h1 (Or.inr hc)
          have h429 : s ≠ 429 := fun hc => h1 (Or.inl hc)
          simp [deleteBrokenResults, h1, h3, h403, h429, ih1, ih2]

/-- C4 witness: statuses [200, 404, 403, 429, -1] keep results 0, 2, 3
with mask segment [1, 0, 1, 1, 0]. -/
theorem validate_images_status_filter_witness :
    ([(200 : ℤ), 404, 403, 429, -1].length = [(10 : ℕ), 11, 12, 13, 14].length) ∧
    (deleteBrokenResults [(200 : ℤ), 404, 403, 429, -1] [(10 : ℕ), 11, 12, 13, 14]).2 =
      [(200 : ℤ), 404, 403, 429, -1].map
        (fun s => if s = 200 ∨ s = 403 ∨ s = 429 then 1 else 0) ∧
    (deleteBrokenResults [(200 : ℤ), 404, 403, 429, -1] [(10 : ℕ), 11, 12, 13, 14]).1 =
      ([(200 : ℤ), 404, 403, 429, -1].zip [(10 : ℕ), 11, 12, 13, 14]).filterMap
        (fun p => if p.1 = 200 ∨ p.1 = 403 ∨ p.1 = 429 then some p.2 else none) := by
  have h := validate_images_status_filter
    [(200 : ℤ), 404, 403, 429, -1] [(10 : ℕ), 11, 12, 13, 14] (by decide)
  exact ⟨by decide, h.1, h.2⟩

/-- C5: merging a freshly computed mask segment into a previously stored
mask keeps every stored entry at a position strictly before the start of
the validated slice unchanged. -/
theorem mask_merge_preserves_prior (oldMask newMask : List ℕ)
    (startSlice i : ℕ) (h1 : i < startSlice) (h2 : i < oldMask.length) :
    (mergeQueryMask oldMask newMask startSlice)[i]? = oldMask[i]? := by
  have hne : oldMask ≠ [] := by
    intro h
    rw [h] at h2
    simp at h2
  rw [mergeQueryMask, if_neg hne, List.getElem?_append]
  have hlt : i < (oldMask.take startSlice).length := by
    simp [List.length_take]
    omega
  rw [if_pos hlt, List.getElem?_take]
  simp [h1]

/-- C5 witness: merging [1, 1] at start 2 into stored mask [1, 0, 1]
keeps position 0 of the stored mask. -/
theorem mask_merge_preserves_prior_witness :
    (0 : ℕ) < 2 ∧ (0 : ℕ) < [1, 0, 1].length ∧
    (mergeQueryMask [1, 0, 1] [1, 1] 2)[0]? = [1, 0, 1][0]? :=
  ⟨by decide, by decide,
    mask_merge_preserves_prior [1, 0, 1] [1, 1] 2 0 (by decide) (by decide)⟩

/-- C7: quote escaping returns the query string unchanged when it holds
an even number of double quotes, and replaces every double quote by a
backslash-escaped quote when that count is odd. -/
theorem quote_escape_spec (s : String) :
    (s.data.count '"' % 2 = 0 → quoteEscape s = s) ∧
    (s.data.count '"' % 2 = 1 → (quoteEscape s).data =
      (s.data.map (fun c => if c = '"' then ['\\', '"'] else [c])).flatten) := by
  constructor
  · intro h
    rw [quoteEscape, if_neg]
    omega
  · intro h
    rw [quoteEscape, if_pos h, pyReplaceChar]

/-- C7 witness: one double quote (odd) gets escaped; two double quotes
(even) are left alone. -/
theorem quote_escape_spec_witness :
    ("ab\"cd".data.count '"' % 2 = 1 ∧
      (quoteEscape "ab\"cd").data =
        ("ab\"cd".data.map (fun c => if c = '"' then ['\\', '"'] else [c])).flatten) ∧
    ("a\"b\"c".data.count '"' % 2 = 0 ∧ quoteEscape "a\"b\"c" = "a\"b\"c") :=
  ⟨⟨by decide, (quote_escape_spec "ab\"cd").2 (by decide)⟩,
   ⟨by decide, (quote_escape_spec "a\"b\"c").1 (by decide)⟩⟩

/-- C8: a media search request carrying both `source` and
`excluded_source` fails validation; a request carrying at most one of
the two passes with its data unchanged. -/
theorem media_source_validate_spec {α : Type} (initialDataKeys : List String)
    (data : α) :
    (("source" ∈ initialDataKeys ∧ "excluded_source" ∈ initialDataKeys) →
      mediaSourceValidate initialDataKeys data = none) ∧
    (¬("source" ∈ initialDataKeys ∧ "excluded_source" ∈ initialDataKeys) →
      mediaSourceValidate initialDataKeys data = some data) := by
  constructor
  · intro h
    rw [mediaSourceValidate, if_pos h]
  · intro h
    rw [mediaSourceValidate, if_neg h]

/-- C8 witness: both keys present is rejected; one key alone passes the
data through. -/
theorem media_source_validate_spec_witness :
    (("source" ∈ ["source", "excluded_source"] ∧
        "excluded_source" ∈ ["source", "excluded_source"]) ∧
      mediaSourceValidate ["source", "excluded_source"] (7 : ℕ) = none) ∧
    (¬("source" ∈ ["source"] ∧ "excluded_source" ∈ ["source"]) ∧
      mediaSourceValidate ["source"] (7 : ℕ) = some 7) :=
  ⟨⟨by decide, (media_source_validate_spec ["source", "excluded_source"] 7).1
      (by decide)⟩,
   ⟨by decide, (media_source_validate_spec ["source"] 7).2 (by decide)⟩⟩

/-- Reassociation helper for concatenations ending in a closed suffix. -/
theorem string_append_reassoc (x c j d L : String) (h : c ++ (j ++ d) = L) :
    x ++ c ++ j ++ d = x ++ L := by
  rw [String.append_assoc, String.append_assoc, h]

/-- C9: the generated help text is exactly the fixed prefix followed by
the backtick-wrapped, comma-joined item list with an Oxford `and` before
the last item whenever there are at least two, and a final period; in
particular the four shapes for zero, one, two and three items. -/
theorem make_help_text_spec (name : String) :
    makeHelpText name [] =
      "A comma separated list of " ++ name ++ "; available " ++ name ++
        " include: ." ∧
    makeHelpText name ["a"] =
      "A comma separated list of " ++ name ++ "; available " ++ name ++
        " include: `a`." ∧
    makeHelpText name ["a", "b"] =
      "A comma separated list of " ++ name ++ "; available " ++ name ++
        " include: `a`, and `b`." ∧
    makeHelpText name ["a", "b", "c"] =
      "A comma separated list of " ++ name ++ "; available " ++ name ++
        " include: `a`, `b`, and `c`." := by
  refine ⟨?_, ?_, ?_, ?_⟩ <;>
    · rw [makeHelpText]
      exact string_append_reassoc _ _ _ _ _ (by rfl)

/-- Depth bound for the backfill recursion: with fuel one more than the
max result window, the recursion always completes, because each step
grows the window end by at least one and stops once `start + end`
exceeds the max result window. -/
theorem postProcessDepth_isSome (resLen : ℕ → ℕ → ℕ) (pageSize : ℕ)
    (filterDead : Bool) :
    ∀ (fuel start e : ℕ), 2 ≤ e →
      elasticsearchMaxResultWindow + 1 ≤ start + e + fuel →
      (postProcessDepth resLen pageSize filterDead fuel start e).isSome = true := by
  intro fuel
  induction fuel with
  | zero =>
    intro start e h1 h2
    rw [postProcessDepth]
    by_cases hfd : filterDead = false
    · simp [hfd]
    · by_cases hps : pageSize ≤ resLen start e
      · simp [hfd, hps]
      · have hguard : elasticsearchMaxResultWindow < start + (e + e / 2) := by
          rw [elasticsearchMaxResultWindow] at h2 ⊢
          omega
        simp [hfd, hps, hguard]
  | succ f ih =>
    intro start e h1 h2
    rw [postProcessDepth]
    by_cases hfd : filterDead = false
    · simp [hfd]
    · by_cases hps : pageSize ≤ resLen start e
      · simp [hfd, hps]
      · by_cases hguard : elasticsearchMaxResultWindow < start + (e + e / 2)
        · simp [hfd, hps, hguard]
        · have hfd2 : filterDead = true := by
            cases filterDead
            · exact absurd rfl hfd
            · rfl
          have hrec := ih start (e + e / 2) (by omega)
            (by rw [elasticsearchMaxResultWindow] at h2 ⊢; omega)
          rw [hfd2] at hrec
          simp [hfd, hps, hguard, hrec]

/-- C10: for every call with `end ≥ 2` the recursive backfill of
`_post_process_results` terminates within `max_window + 1` steps, and
each recursive step strictly increases `end` by `end / 2 ≥ 1`. -/
theorem post_process_results_terminates (resLen : ℕ → ℕ → ℕ)
    (pageSize : ℕ) (filterDead : Bool) (start e : ℕ) (h : 2 ≤ e) :
    (postProcessDepth resLen pageSize filterDead
      (elasticsearchMaxResultWindow + 1) start e).isSome = true ∧
    e < e + e / 2 :=
  ⟨postProcessDepth_isSome resLen pageSize filterDead _ start e h
      (by omega),
   by omega⟩

/-- C10 witness: the backfill recursion completes from start 0, end 2,
page size 1 with every fetched slice empty. -/
theorem post_process_results_terminates_witness :
    (2 : ℕ) ≤ 2 ∧
    ((postProcessDepth (fun _ _ => 0) 1 true
        (elasticsearchMaxResultWindow + 1) 0 2).isSome = true ∧
      2 < 2 + 2 / 2) :=
  ⟨by decide, post_process_results_terminates (fun _ _ => 0) 1 true 0 2 (by decide)⟩

/-- C6: the page count reported by `_get_result_and_page_count` never
exceeds `floor((max_window + page_size / 2) / page_size)` with
`max_window = 10000`, however large the raw hit total. -/
theorem page_count_capped (hitsTotal resultsLen pageSize : ℕ)
    (h : 1 ≤ pageSize) :
    (getResultAndPageCount hitsTotal resultsLen pageSize).2 ≤
      ⌊(((elasticsearchMaxResultWindow : ℚ)) + pageSize / 2) / pageSize⌋₊ := by
  have hcode : (getResultAndPageCount hitsTotal resultsLen pageSize).2 ≤
      (10000 + pageSize) / (2 * pageSize) := by
    simp [getResultAndPageCount]
  refine hcode.trans (Nat.le_floor ?_)
  have hps : (0 : ℚ) < pageSize := by
    exact_mod_cast Nat.lt_of_lt_of_le Nat.zero_lt_one h
  have hcast : (((10000 + pageSize) / (2 * pageSize) : ℕ) : ℚ) ≤
      ((10000 + pageSize : ℕ) : ℚ) / ((2 * pageSize : ℕ) : ℚ) :=
    Nat.cast_div_le
  refine hcast.trans ?_
  push_cast
  rw [div_le_div_iff₀ (by positivity) hps]
  rw [elasticsearchMaxResultWindow]
  push_cast
  nlinarith [hps]

/-- C6 witness: at page size 20 the cap applies to any hit total. -/
theorem page_count_capped_witness :
    (1 : ℕ) ≤ 20 ∧
    (getResultAndPageCount 1000000 20 20).2 ≤
      ⌊(((elasticsearchMaxResultWindow : ℚ)) + 20 / 2) / 20⌋₊ :=
  ⟨by decide, page_count_capped 1000000 20 20 (by decide)⟩

/-- Every value from just above the accumulator up to the accumulator
plus the sum is hit by some inclusive prefix sum of a 0/1 list. -/
theorem mem_accumulateFrom (xs : List ℕ) :
    ∀ (acc t : ℕ), (∀ x ∈ xs, x ≤ 1) → acc < t → t ≤ acc + xs.sum →
      t ∈ accumulateFrom acc xs := by
  induction xs with
  | nil =>
    intro acc t _ hlt hle
    simp at hle
    omega
  | cons x xs ih =>
    intro acc t hbin hlt hle
    rw [accumulateFrom]
    rcases Nat.lt_or_ge (acc + x) t with hgt | hge
    · refine List.mem_cons_of_mem _ (ih (acc + x) t ?_ hgt ?_)
      · intro y hy
        exact hbin y (List.mem_cons_of_mem _ hy)
      · simp [List.sum_cons] at hle
        omega
    · have hx : x ≤ 1 := hbin x (List.mem_cons_self x xs)
      have : t = acc + x := by omega
      rw [this]
      exact List.mem_cons_self _ _

/-- Python `list.index` finds an index for every member. -/
theorem pyIndex_isSome_of_mem :
    ∀ (l : List ℕ) (t : ℕ), t ∈ l → ∃ i, pyIndex l t = some i := by
  intro l
  induction l with
  | nil => intro t ht; simp at ht
  | cons x xs ih =>
    intro t ht
    rw [pyIndex]
    by_cases hx : x = t
    · exact ⟨0, by simp [hx]⟩
    · have hmem : t ∈ xs := by
        rcases List.mem_cons.mp ht with h | h
        · exact absurd h.symm hx
        · exact h
      obtain ⟨i, hi⟩ := ih t hmem
      exact ⟨i + 1, by simp [hx, hi]⟩

/-- For a 0/1 mask, every target count between 1 and the mask's sum has
a first prefix-sum index. -/
theorem pyIndex_accumulate_isSome (queryMask : List ℕ) (t : ℕ)
    (hbin : ∀ x ∈ queryMask, x ≤ 1) (h1 : 1 ≤ t) (h2 : t ≤ queryMask.sum) :
    ∃ i, pyIndex (accumulate queryMask) t = some i :=
  pyIndex_isSome_of_mem _ _
    (mem_accumulateFrom queryMask 0 t hbin (by omega) (by simpa using h2))

/-- C3 counterexample: with stored mask [0, 1], page 1 and page size 1,
the source returns the slice (0, 2), while the claimed prefix-sum rule
for the start (first index where the prefix sum reaches
`page_size * (page - 1) + 1 = 1`, here index 1) prescribes (1, 2). -/
theorem paginate_claim_counterexample :
    paginateWithDeadLinkMask [0, 1] 1 1 = some (0, 2) ∧
    specSliceClaimed [0, 1] 1 1 = (1, 2) ∧
    some (specSliceClaimed [0, 1] 1 1) ≠ paginateWithDeadLinkMask [0, 1] 1 1 := by
  refine ⟨by decide, by decide, by decide⟩

/-- C3 (amended: for page 1 the start is 0; the claimed prefix-sum rule
with its fall-back applies from page 2 on): for every positive page and
page size and every 0/1 stored mask, `_paginate_with_dead_link_mask`
returns exactly the slice the amended specification prescribes — the
worst-case overfetch from 0 with no stored mask, the overfetch from the
end of the mask when the requested page lies beyond the validated
positions, and otherwise the prefix-sum start with the claimed fall-back
together with the prefix-sum end or the overfetch end. -/
theorem paginate_with_dead_link_mask_spec (queryMask : List ℕ)
    (pageSize page : ℕ) (hps : 1 ≤ pageSize) (hpg : 1 ≤ page)
    (hbin : ∀ x ∈ queryMask, x ≤ 1) :
    paginateWithDeadLinkMask queryMask pageSize page =
      some (specSliceAmended queryMask pageSize page) := by
  rw [paginateWithDeadLinkMask, specSliceAmended]
  by_cases hmask : queryMask = []
  · simp [hmask]
  · rw [if_neg hmask, if_neg hmask]
    by_cases hskip : queryMask.sum < pageSize * (page - 1)
    · rw [if_pos hskip, if_pos hskip]
    · rw [if_neg hskip, if_neg hskip]
      have hendEq : ∀ start : ℕ,
          (if queryMask.sum < pageSize * page then
            some (start, overfetchEnd pageSize page)
          else
            (pyIndex (accumulate queryMask) (pageSize * page)).map
              (fun i => (start, i + 1))) =
          some (start,
            if queryMask.sum < pageSize * page then overfetchEnd pageSize page
            else (pyIndex (accumulate queryMask) (pageSize * page)).getD 0 + 1) := by
        intro start
        by_cases hend : queryMask.sum < pageSize * page
        · rw [if_pos hend, if_pos hend]
        · obtain ⟨i, hi⟩ := pyIndex_accumulate_isSome queryMask (pageSize * page)
            hbin (Nat.mul_pos (by omega) (by omega))
            (Nat.le_of_not_lt hend)
          rw [if_neg hend, if_neg hend, hi]
          rfl
      by_cases hpage : page = 1
      · subst hpage
        rw [if_neg (by omega : ¬(1 < 1)), if_pos rfl]
        exact hendEq 0
      · have hlt : 1 < page := by omega
        rw [if_pos hlt, if_neg hpage, specStartForMask]
        cases hidx : pyIndex (accumulate queryMask) (pageSize * (page - 1) + 1) with
        | some i =>
          simp only [hidx]
          exact hendEq i
        | none =>
          have ht1pos : 1 ≤ pageSize * (page - 1) :=
            Nat.mul_pos (by omega) (by omega)
          obtain ⟨j, hj⟩ := pyIndex_accumulate_isSome queryMask
            (pageSize * (page - 1)) hbin ht1pos (Nat.le_of_not_lt hskip)
          simp only [hidx, hj, Option.map_some]
          exact hendEq (j + 1)

/-- C3 witness for the amended claim: mask [0, 1], page size 1, page 2
lands in the in-mask branch with the fall-back start (prefix sum 1 is
first reached at index 1, so start is 2) and the overfetch end. -/
theorem paginate_with_dead_link_mask_spec_witness :
    (1 : ℕ) ≤ 1 ∧ (1 : ℕ) ≤ 2 ∧ (∀ x ∈ [0, 1], x ≤ 1) ∧
    paginateWithDeadLinkMask [0, 1] 1 2 = some (specSliceAmended [0, 1] 1 2) :=
  ⟨by decide, by decide, by decide,
    paginate_with_dead_link_mask_spec [0, 1] 1 2 (by decide) (by decide)
      (by decide)⟩

/-- Recording a callback for a still-pending shard raises the finished
count by one. -/
theorem countFinished_update {n : ℕ} (shards : Fin n → Option Bool)
    (i : Fin n) (b : Bool) (h : shards i = none) :
    countFinished (Function.update shards i (some b)) =
      countFinished shards + 1 := by
  rw [countFinished, countFinished]
  have hset : (Finset.univ.filter
      (fun j => ((Function.update shards i (some b)) j).isSome = true)) =
      insert i (Finset.univ.filter (fun j => (shards j).isSome = true)) := by
    ext j
    by_cases hj : j = i
    · subst hj
      simp [Function.update_same]
    · simp [Function.update_apply, hj]
  rw [hset, Finset.card_insert_of_not_mem]
  simp [h]

/-- A shard that did not report success keeps the success count below
the shard total. -/
theorem countSuccessful_lt {n : ℕ} (shards : Fin n → Option Bool)
    (i : Fin n) (h : shards i ≠ some false) : countSuccessful shards < n := by
  have hsub : (Finset.univ.filter (fun j => shards j = some false)) ⊆
      Finset.univ.erase i := by
    intro j hj
    simp only [Finset.mem_filter] at hj
    refine Finset.mem_erase.mpr ⟨?_, Finset.mem_univ j⟩
    intro hji
    exact h (hji ▸ hj.2)
  calc countSuccessful shards ≤ (Finset.univ.erase i).card :=
        Finset.card_le_card hsub
    _ < Finset.univ.card := Finset.card_erase_lt_of_mem (Finset.mem_univ i)
    _ = n := by simp

/-- A shard that did not report success keeps percent-successful
strictly below 100. -/
theorem percentSuccessful_lt_100 {n : ℕ} (shards : Fin n → Option Bool)
    (i : Fin n) (h : shards i ≠ some false) :
    percentSuccessful shards < 100 := by
  have hc : countSuccessful shards < n := countSuccessful_lt shards i h
  have hn : (0 : ℚ) < n := by exact_mod_cast i.pos
  rw [percentSuccessful, div_lt_iff₀ hn]
  have : (countSuccessful shards : ℚ) < n := by exact_mod_cast hc
  nlinarith

/-- When every shard has called back, percent-completed is exactly 100. -/
theorem percentCompleted_eq_100 {n : ℕ} (shards : Fin n → Option Bool)
    (hn : 0 < n) (h : countFinished shards = n) :
    percentCompleted shards = 100 := by
  rw [percentCompleted, h]
  have hn' : (n : ℚ) ≠ 0 := by exact_mod_cast hn.ne'
  field_simp

/-- Distinct callbacks each finish one more shard. -/
theorem countFinished_foldl {n : ℕ} :
    ∀ (us : List (Fin n × Bool)) (st : CoordState n),
      (us.map Prod.fst).Nodup →
      (∀ u ∈ us, st.shards u.1 = none) →
      countFinished (us.foldl workerFinishedStep st).shards =
        countFinished st.shards + us.length := by
  intro us
  induction us with
  | nil => intro st _ _; simp
  | cons u us ih =>
    intro st hnd hnone
    have hnd0 : u.1 ∉ us.map Prod.fst ∧ (us.map Prod.fst).Nodup := by
      simpa using hnd
    have hstep : (workerFinishedStep st u).shards =
        Function.update st.shards u.1 (some u.2) := rfl
    have hnone' : ∀ v ∈ us, (workerFinishedStep st u).shards v.1 = none := by
      intro v hv
      rw [hstep, Function.update_apply]
      have hvne : v.1 ≠ u.1 := by
        intro hEq
        exact hnd0.1 (hEq ▸ List.mem_map_of_mem Prod.fst hv)
      rw [if_neg hvne]
      exact hnone v (List.mem_cons_of_mem _ hv)
    rw [List.foldl_cons, ih (workerFinishedStep st u) hnd0.2 hnone', hstep,
      countFinished_update st.shards u.1 u.2
        (hnone u (List.mem_cons_self u us))]
    simp [Nat.add_assoc, Nat.add_comm 1]

/-- Invariant of the callback fold: with pairwise-distinct callbacks and
a shard that has errored (or still will), the coordinator never spawns
the promotion step, that shard never reads as successful, a completed
task has its workers marked inactive, and the task progress always
equals the accumulated percent-successful. -/
theorem coord_invariant {n : ℕ} (e : Fin n) :
    ∀ (us : List (Fin n × Bool)) (st : CoordState n),
      (us.map Prod.fst).Nodup →
      (∀ u ∈ us, st.shards u.1 = none) →
      st.promoted = false →
      (st.shards e = some true ∨ ((e, true) ∈ us ∧ st.shards e = none)) →
      (percentCompleted st.shards = 100 → st.activeWorkers = false) →
      st.progress = percentSuccessful st.shards →
      (us.foldl workerFinishedStep st).promoted = false ∧
      (us.foldl workerFinishedStep st).shards e ≠ some false ∧
      (percentCompleted (us.foldl workerFinishedStep st).shards = 100 →
        (us.foldl workerFinishedStep st).activeWorkers = false) ∧
      (us.foldl workerFinishedStep st).progress =
        percentSuccessful (us.foldl workerFinishedStep st).shards := by
  intro us
  induction us with
  | nil =>
    intro st _ _ hpr hwit hJ hprog
    simp only [List.foldl_nil]
    refine ⟨hpr, ?_, hJ, hprog⟩
    rcases hwit with h | h
    · rw [h]; simp
    · exact absurd h.1 (List.not_mem_nil _)
  | cons u us ih =>
    intro st hnd hnone hpr hwit hJ hprog
    have hnd0 : u.1 ∉ us.map Prod.fst ∧ (us.map Prod.fst).Nodup := by
      simpa using hnd
    have hstep : (workerFinishedStep st u).shards =
        Function.update st.shards u.1 (some u.2) := rfl
    have hwit' : (workerFinishedStep st u).shards e = some true ∨
        ((e, true) ∈ us ∧ (workerFinishedStep st u).shards e = none) := by
      rcases hwit with hsome | ⟨hmem, hnone_e⟩
      · left
        rw [hstep, Function.update_apply]
        have hne : e ≠ u.1 := by
          intro hEq
          have := hnone u (List.mem_cons_self u us)
          rw [← hEq, hsome] at this
          exact Option.noConfusion this
        rw [if_neg hne]
        exact hsome
      · rcases List.mem_cons.mp hmem with hEq | hmem'
        · left
          rw [hstep, ← hEq]
          exact Function.update_same _ _ _
        · right
          have hne : e ≠ u.1 := by
            intro hEq
            exact hnd0.1 (hEq ▸ List.mem_map_of_mem Prod.fst hmem')
          refine ⟨hmem', ?_⟩
          rw [hstep, Function.update_apply, if_neg hne]
          exact hnone_e
    have hne_false : (workerFinishedStep st u).shards e ≠ some false := by
      rcases hwit' with h | h
      · rw [h]; simp
      · rw [h.2]; simp
    have hps : percentSuccessful (workerFinishedStep st u).shards ≠ 100 :=
      ne_of_lt (percentSuccessful_lt_100 _ e hne_false)
    have hps' : percentSuccessful
        (Function.update st.shards u.1 (some u.2)) ≠ 100 := by
      rw [← hstep]; exact hps
    have hpr' : (workerFinishedStep st u).promoted = false := by
      simp only [workerFinishedStep, if_neg hps']
      exact hpr
    have hJ' : percentCompleted (workerFinishedStep st u).shards = 100 →
        (workerFinishedStep st u).activeWorkers = false := by
      intro hc
      rw [hstep] at hc
      simp only [workerFinishedStep, if_neg hps', if_pos hc]
    have hprog' : (workerFinishedStep st u).progress =
        percentSuccessful (workerFinishedStep st u).shards := rfl
    have hnone' : ∀ v ∈ us, (workerFinishedStep st u).shards v.1 = none := by
      intro v hv
      rw [hstep, Function.update_apply]
      have hvne : v.1 ≠ u.1 := by
        intro hEq
        exact hnd0.1 (hEq ▸ List.mem_map_of_mem Prod.fst hv)
      rw [if_neg hvne]
      exact hnone v (List.mem_cons_of_mem _ hv)
    rw [List.foldl_cons]
    exact ih (workerFinishedStep st u) hnd0.2 hnone' hpr' hwit' hJ' hprog'

/-- C1: a `worker_finished` callback spawns the promotion step exactly
when the accumulated percent-successful reaches 100; and over any
sequence of pairwise-distinct shard callbacks containing at least one
error report, the promotion step is never spawned, and once every shard
has called back the task ends with `active_workers` false and its
progress (the accumulated percent-successful) strictly below 100 — a
non-promoted partial-failure state. -/
theorem worker_finished_no_promotion (n : ℕ)
    (updates : List (Fin n × Bool))
    (hnd : (updates.map Prod.fst).Nodup)
    (herr : ∃ u ∈ updates, u.2 = true) :
    (∀ (st : CoordState n) (u : Fin n × Bool),
      ((workerFinishedStep st u).promoted = true ↔
        (percentSuccessful (Function.update st.shards u.1 (some u.2)) = 100 ∨
          st.promoted = true))) ∧
    (runCallbacks n updates).promoted = false ∧
    (updates.length = n →
      (runCallbacks n updates).activeWorkers = false ∧
      (runCallbacks n updates).progress < 100) := by
  obtain ⟨u0, hu0mem, hu0err⟩ := herr
  have hu0 : (u0.1, true) ∈ updates := by
    have : u0 = (u0.1, true) := by
      rw [← hu0err]
    rwa [← this]
  have hnone0 : ∀ u ∈ updates, (initCoordState n).shards u.1 = none := by
    intro u _
    rfl
  have hJ0 : percentCompleted (initCoordState n).shards = 100 →
      (initCoordState n).activeWorkers = false := by
    intro hc
    exfalso
    have hzero : countFinished (initCoordState n).shards = 0 := by
      rw [countFinished]
      simp [initCoordState]
    rw [percentCompleted, hzero] at hc
    norm_num at hc
  have hprog0 : (initCoordState n).progress =
      percentSuccessful (initCoordState n).shards := by
    have hzero : countSuccessful (initCoordState n).shards = 0 := by
      rw [countSuccessful]
      simp [initCoordState]
    rw [percentSuccessful, hzero, initCoordState]
    norm_num
  have hinv := coord_invariant u0.1 updates (initCoordState n) hnd hnone0 rfl
    (Or.inr ⟨hu0, rfl⟩) hJ0 hprog0
  refine ⟨?_, hinv.1, ?_⟩
  · intro st u
    by_cases hc : percentSuccessful (Function.update st.shards u.1 (some u.2)) = 100
    · simp [workerFinishedStep, hc]
    · simp [workerFinishedStep, hc]
  · intro hlen
    have hfin : countFinished (runCallbacks n updates).shards = n := by
      rw [runCallbacks, countFinished_foldl updates (initCoordState n) hnd hnone0]
      have hzero : countFinished (initCoordState n).shards = 0 := by
        rw [countFinished]
        simp [initCoordState]
      rw [hzero, hlen]
      omega
    refine ⟨hinv.2.2.1 (percentCompleted_eq_100 _ u0.1.pos hfin), ?_⟩
    rw [runCallbacks, hinv.2.2.2]
    exact percentSuccessful_lt_100 _ u0.1 hinv.2.1

/-- C1 witness: three shards, two successes and one failure, reported in
order; the task ends unpromoted, with inactive workers and progress
below 100. -/
theorem worker_finished_no_promotion_witness :
    (runCallbacks 3 [((0 : Fin 3), false), (1, false), (2, true)]).promoted
        = false ∧
    (runCallbacks 3 [((0 : Fin 3), false), (1, false), (2, true)]).activeWorkers
        = false ∧
    (runCallbacks 3 [((0 : Fin 3), false), (1, false), (2, true)]).progress
        < 100 := by
  have h := worker_finished_no_promotion 3
    [((0 : Fin 3), false), (1, false), (2, true)] (by decide)
    ⟨((2 : Fin 3), true), by decide, rfl⟩
  exact ⟨h.2.1, (h.2.2 rfl).1, (h.2.2 rfl).2⟩

end Openverse
